import Mathlib

/-!
Verification development for the FFmpeg merge/monitor service
(`src/src-tauri/src/services/ffmpeg.rs` of BiliTools).

The Rust code is shallowly embedded:
* pure helpers (`key=value` line splitting, value coercion, the rolling
  field window, codec selection) become Lean functions;
* the tail loop of `monitor` becomes a step function over an explicit
  `TailerState`, driven by a list of per-iteration filesystem
  observations (`Obs`): each observation is the metadata size and the
  file bytes seen by that iteration, or an I/O failure;
* `merge` becomes a function of a `MergeEnv` recording the outcomes of
  the external collaborators (log-dir setup, the one-shot stream probe,
  the transcoder process, the monitor's observations) which returns the
  list of performed side effects and the final outcome.  A `panic`
  outcome models a Rust `unwrap()` on `None`; `pending` models a
  `try_join!` that never completes.

The event channel (`Channel<DownloadEvent>`) is an out-of-scope external
sink; `send` is modelled as always succeeding, events being collected
into a trace.  File contents are modelled as `List Char` with one `Char`
per byte (the log files at issue are ASCII).
-/

set_option maxHeartbeats 1000000

namespace FFmpegSpec

/-- Task types from the `aria2c` module (not under `src/`); only the
variants used by `ffmpeg.rs` are modelled. -/
inductive TaskType
  | Video
  | Audio
  | Merge
  deriving DecidableEq

/-- Fields of `aria2c::Task` used by `ffmpeg.rs`: the optional group id
`gid`, the optional file `path`, and the task type. -/
structure Task where
  gid : Option String
  path : Option String
  taskType : TaskType
  deriving DecidableEq

/-- Fields of `aria2c::QueueInfo` used by `merge`.  `outputExt` models
`output.extension().and_then(|e| e.to_str()).unwrap_or("")` (the `Path`
API is external std code). -/
structure QueueInfo where
  id : String
  tasks : List Task
  outputExt : String
  deriving DecidableEq

/-- Decoded `serde_json::Value` as produced by the value coercion in
`monitor`: a `u64` number, an `f64` number (raw text kept; no claim
inspects the float value), or a raw string. -/
inductive JVal
  | uintNum (n : Nat)
  | floatNum (raw : String)
  | str (s : String)
  deriving DecidableEq

/-- Modelled from the spec: the event protocol of the external sink
(`aria2c::DownloadEvent` is not under `src/`).  Three variants:
`Started ⟨job id, group id, task kind⟩`, `Progress` carrying
`content_length` (total units) and `chunk_length` (current units), and
`Finished ⟨job id, group id⟩`; field shapes follow the construction
sites in `monitor`. -/
inductive DownloadEvent
  | Started (id gid : String) (taskType : TaskType)
  | Progress (id gid : String) (contentLength chunkLength : Nat)
  | Finished (id gid : String)
  deriving DecidableEq

/-! ### Value coercion (`monitor`, lines 190-196)

`value.parse::<u64>()`, then `value.parse::<f64>()`, else the raw
string.  `u64::from_str` accepts an optional `+` sign and ASCII digits,
with the value below `2 ^ 64`.  `f64::from_str` accepts, per its
documented grammar, an optional sign followed by `inf`, `infinity`,
`nan` (case-insensitive) or a decimal number with optional fraction and
exponent. -/

def isDigits (l : List Char) : Bool := !l.isEmpty && l.all Char.isDigit

def digitsToNat (l : List Char) : Nat :=
  l.foldl (fun acc c => acc * 10 + (c.toNat - 48)) 0

def parseU64 (s : String) : Option Nat :=
  let l := match s.data with
    | '+' :: cs => cs
    | cs => cs
  if isDigits l && digitsToNat l < 2 ^ 64 then some (digitsToNat l) else none

def stripSign : List Char → List Char
  | [] => []
  | c :: cs => if c = '+' || c = '-' then cs else c :: cs

/-- Split a char list at the first char satisfying `p`; `none` if absent. -/
def breakAt (p : Char → Bool) : List Char → Option (List Char × List Char)
  | [] => none
  | c :: cs =>
    if p c then some ([], cs)
    else match breakAt p cs with
      | none => none
      | some (a, b) => some (c :: a, b)

def mantissaOk (l : List Char) : Bool :=
  match breakAt (fun c => c = '.') l with
  | none => isDigits l
  | some (a, b) => (isDigits a && (b.isEmpty || isDigits b)) || (a.isEmpty && isDigits b)

def numberOk (l : List Char) : Bool :=
  match breakAt (fun c => c = 'e' || c = 'E') l with
  | none => mantissaOk l
  | some (a, b) => mantissaOk a && isDigits (stripSign b)

def lowerChars (l : List Char) : List Char := l.map Char.toLower

def parsesAsF64 (s : String) : Bool :=
  let l := stripSign s.data
  lowerChars l == "inf".data || lowerChars l == "infinity".data ||
    lowerChars l == "nan".data || numberOk l

def coerceValue (s : String) : JVal :=
  match parseU64 s with
  | some n => .uintNum n
  | none => if parsesAsF64 s then .floatNum s else .str s

/-! ### The map (`serde_json::Map`)

Modelled as an association list with unique keys; only membership,
lookup, insert-with-overwrite and remove semantics of the underlying
`BTreeMap` matter to the code (iteration order never does: the map is
only consumed through `serde_json::from_value`). -/

abbrev JMap := List (String × JVal)

def mapRemove (m : JMap) (k : String) : JMap :=
  m.filter (fun p => p.1 != k)

def mapInsert (m : JMap) (k : String) (v : JVal) : JMap :=
  mapRemove m k ++ [(k, v)]

def mapKeys (m : JMap) : List String := m.map Prod.fst

/-! ### The rolling field window (`monitor`, lines 166-167 and 185-198)

`map : Map<String, Value>` together with `keys : Vec<Option<String>>`;
before each insertion, if `keys.len() >= 12` the oldest entry of `keys`
is removed and, when it is `Some`, its key is removed from the map; the
new pair is then inserted and `Some key` pushed. -/

structure Window where
  map : JMap
  keys : List (Option String)
  deriving DecidableEq

def emptyWindow : Window := ⟨[], []⟩

def windowEvict (w : Window) : Window :=
  if 12 ≤ w.keys.length then
    match w.keys with
    | [] => w
    | some oldest :: rest => ⟨mapRemove w.map oldest, rest⟩
    | none :: rest => ⟨w.map, rest⟩
  else w

def windowInsert (w : Window) (k : String) (v : JVal) : Window :=
  let w1 := windowEvict w
  ⟨mapInsert w1.map k v, w1.keys ++ [some k]⟩

def windowInsertAll (w : Window) (seq : List (String × JVal)) : Window :=
  seq.foldl (fun w kv => windowInsert w kv.1 kv.2) w

/-! ### Line reading and processing (`monitor`, lines 178-201)

`read_line` returns each chunk up to and including a newline, plus a
final newline-less chunk at end of file when nonempty; each line is
trimmed (`str::trim`, whitespace stripped from both ends) and split at
the first `=` (`split_once('=')`, separator dropped), a line without
`=` being skipped.  Lines are manipulated as char lists and converted
to `String` at insertion. -/

def splitLinesAux : List Char → List Char → List (List Char)
  | acc, [] => if acc.isEmpty then [] else [acc.reverse]
  | acc, c :: cs =>
    if c = '\n' then (acc.reverse ++ ['\n']) :: splitLinesAux [] cs
    else splitLinesAux (c :: acc) cs

/-- Lines produced by the `read_line` loop after seeking to `cursor`. -/
def readNewLines (cursor : Nat) (content : List Char) : List (List Char) :=
  splitLinesAux [] (content.drop cursor)

def trimChars (l : List Char) : List Char :=
  ((l.dropWhile Char.isWhitespace).reverse.dropWhile Char.isWhitespace).reverse

def splitOnceEq (l : List Char) : Option (List Char × List Char) :=
  breakAt (fun c => c = '=') l

def processLine (w : Window) (line : List Char) : Window :=
  match splitOnceEq (trimChars line) with
  | none => w
  | some (k, v) =>
    windowInsert w (String.mk (trimChars k)) (coerceValue (String.mk (trimChars v)))

def processLines (w : Window) (ls : List (List Char)) : Window :=
  ls.foldl processLine w

/-! ### The telemetry record (`FFmpegLog`, lines 19-33) and its decoding

Serde deserialization from `Value::Object(map)`: every field must be
present; `u64`/`u32` fields require an integer-stored number (`u32`
additionally below `2 ^ 32`), `f64` fields accept any number, `String`
fields require a JSON string; unknown keys are ignored.  The two `f64`
fields are kept as their coerced `JVal` (no claim inspects them). -/

structure FFmpegLog where
  frame : Nat
  fps : JVal
  stream_0_0_q : JVal
  bitrate : String
  total_size : Nat
  out_time_us : Nat
  out_time_ms : Nat
  out_time : String
  dup_frames : Nat
  drop_frames : Nat
  speed : String
  progress : String
  deriving DecidableEq

def asU64 : Option JVal → Option Nat
  | some (.uintNum n) => some n
  | _ => none

def asU32 : Option JVal → Option Nat
  | some (.uintNum n) => if n < 2 ^ 32 then some n else none
  | _ => none

def asF64 : Option JVal → Option JVal
  | some (.uintNum n) => some (.uintNum n)
  | some (.floatNum r) => some (.floatNum r)
  | _ => none

def asStr : Option JVal → Option String
  | some (.str s) => some s
  | _ => none

def decodeLog (m : JMap) : Option FFmpegLog := do
  let frame ← asU64 (m.lookup "frame")
  let fps ← asF64 (m.lookup "fps")
  let q ← asF64 (m.lookup "stream_0_0_q")
  let bitrate ← asStr (m.lookup "bitrate")
  let totalSize ← asU64 (m.lookup "total_size")
  let outTimeUs ← asU64 (m.lookup "out_time_us")
  let outTimeMs ← asU64 (m.lookup "out_time_ms")
  let outTime ← asStr (m.lookup "out_time")
  let dupFrames ← asU32 (m.lookup "dup_frames")
  let dropFrames ← asU32 (m.lookup "drop_frames")
  let speed ← asStr (m.lookup "speed")
  let progress ← asStr (m.lookup "progress")
  pure ⟨frame, fps, q, bitrate, totalSize, outTimeUs, outTimeMs, outTime,
    dupFrames, dropFrames, speed, progress⟩

/-! ### Errors

One constructor per error site of `merge`/`monitor`; `failedToMerge`
models the `.context("Failed to merge")` wrapper, whose argument is the
cause. -/

inductive Err
  | insufficientInputs (n : Nat)
  | appLogDirFailed
  | createDirFailed
  | streamInfoFailed (cause : Err)
  | probeNoFrames
  | probeNoCodec
  | shellFailed
  | ffmpegExit (code : Int)
  | monitorIoFailed
  | monitorDecodeFailed
  | failedToMerge (cause : Err)
  deriving DecidableEq

/-! ### The tail loop of `monitor` (lines 158-226) -/

structure TailerState where
  lastSize : Nat
  window : Window
  deriving DecidableEq

def initState : TailerState := ⟨0, emptyWindow⟩

/-- One iteration's filesystem behavior: either `fs::metadata`/`File::open`
fails, or the iteration observes metadata size `size` and file bytes
`content` (reading proceeds to the end of `content`, which may differ
from `size` since the two are separate syscalls). -/
inductive Obs
  | ioError
  | snap (size : Nat) (content : List Char)
  deriving DecidableEq

def obsSize : Obs → Option Nat
  | .ioError => none
  | .snap s _ => some s

inductive StepRes
  | cont
  | fin
  | err (e : Err)
  deriving DecidableEq

/-- The window after one iteration's `read_line` loop. -/
def tailWindow (st : TailerState) (content : List Char) : Window :=
  processLines st.window (readNewLines st.lastSize content)

/-- One iteration of the tail loop: read-lines from the cursor, set the
cursor to the observed metadata size, then decode and branch on
`progress`. -/
def tailStep (id gid : String) (frames : Nat) (st : TailerState) (o : Obs) :
    TailerState × List DownloadEvent × StepRes :=
  match o with
  | .ioError => (st, [], .err .monitorIoFailed)
  | .snap size content =>
    let w := tailWindow st content
    let st2 : TailerState := ⟨size, w⟩
    if w.map.isEmpty then (st2, [], .cont)
    else
      match decodeLog w.map with
      | none => (st2, [], .err .monitorDecodeFailed)
      | some log =>
        match log.progress with
        | "continue" => (st2, [.Progress id gid frames log.frame], .cont)
        | "end" => (st2, [.Finished id gid], .fin)
        | _ => (st2, [], .cont)

inductive MonOutcome
  | finished
  | errored (e : Err)
  | running
  deriving DecidableEq

/-- The tail loop over a list of observations; exhausting the list while
no terminal condition was hit leaves the loop `running`. -/
def monitorLoop (id gid : String) (frames : Nat) :
    TailerState → List Obs → List DownloadEvent × MonOutcome
  | _, [] => ([], .running)
  | st, o :: rest =>
    match tailStep id gid frames st o with
    | (st2, evs, .cont) =>
      let r := monitorLoop id gid frames st2 rest
      (evs ++ r.1, r.2)
    | (_, evs, .fin) => (evs, .finished)
    | (_, evs, .err e) => (evs, .errored e)

/-- Group id string: `task.gid.as_ref().unwrap_or(&String::new())`
(recomputed identically each iteration in the source). -/
def gidOf (task : Task) : String := task.gid.getD ""

/-- The whole of `monitor` after the existence wait: emit `Started` with
the fixed `TaskType::Merge`, then run the tail loop from a zero cursor
and an empty window. -/
def monitorRun (id : String) (task : Task) (frames : Nat) (obs : List Obs) :
    List DownloadEvent × MonOutcome :=
  let gid := gidOf task
  let r := monitorLoop id gid frames initState obs
  (.Started id gid .Merge :: r.1, r.2)

/-- Post-iteration states of the tail loop (the state after an
`ioError` iteration is the unchanged input state). -/
def tailStates (id gid : String) (frames : Nat) :
    TailerState → List Obs → List TailerState
  | _, [] => []
  | st, o :: rest =>
    match tailStep id gid frames st o with
    | (st2, _, .cont) => st2 :: tailStates id gid frames st2 rest
    | (st2, _, _) => [st2]

/-! ### `merge` (lines 66-134) -/

/-- Outcome of the external process run inside the `ffmpeg` async block:
the sidecar/spawn machinery failed, or the process exited with the given
success flag and exit code. -/
inductive ProcResult
  | ioFail
  | exited (success : Bool) (code : Option Int)
  deriving DecidableEq

def ffmpegTask : ProcResult → Except Err Unit
  | .ioFail => .error .shellFailed
  | .exited true _ => .ok ()
  | .exited false code => .error (.ffmpegExit (code.getD (-1)))

inductive Effect
  | createLogDir
  | probeSpawn
  | transcoderSpawn (audioCodec : String)
  deriving DecidableEq

inductive MergeOutcome
  | ok
  | err (e : Err)
  | panic
  | pending
  deriving DecidableEq

/-- Audio codec selection (lines 99-105). -/
def selectCodec (ext audioCodec : String) : String :=
  match ext with
  | "mp4" | "flv" =>
    match audioCodec with
    | "aac" | "mp3" => "copy"
    | _ => "aac"
  | _ => "copy"

def findVideo (ts : List Task) : Option Task :=
  ts.find? (fun t => t.taskType == TaskType.Video)

def findAudio (ts : List Task) : Option Task :=
  ts.find? (fun t => t.taskType == TaskType.Audio)

/-- First error among the two concurrent task results (`none` models a
task that never completes); when both error, `fFirst` records which one
errored first under the scheduler. -/
def firstFailure : Option (Except Err Unit) → Option (Except Err Unit) → Bool → Option Err
  | some (.error ef), some (.error em), fFirst => some (if fFirst then ef else em)
  | some (.error ef), _, _ => some ef
  | _, some (.error em), _ => some em
  | _, _, _ => none

/-- `tokio::try_join!`: completes with the first error, with `ok` when
both complete successfully, and never (here `none`) otherwise. -/
def tryJoin (f m : Option (Except Err Unit)) (fFirst : Bool) :
    Option (Except Err Unit) :=
  match firstFailure f m fFirst with
  | some e => some (.error e)
  | none =>
    match f, m with
    | some (.ok _), some (.ok _) => some (.ok ())
    | _, _ => none

def monTaskResult : MonOutcome → Option (Except Err Unit)
  | .finished => some (.ok ())
  | .errored e => some (.error e)
  | .running => none

/-- External-collaborator outcomes for one `merge` run. -/
structure MergeEnv where
  info : QueueInfo
  appLogDirOk : Bool
  createDirOk : Bool
  probe : Except Err (Nat × String)
  proc : Option ProcResult
  monObs : List Obs
  ffmpegFirst : Bool

def joinOutcome : Option (Except Err Unit) → MergeOutcome
  | none => .pending
  | some (.ok _) => .ok
  | some (.error e) => .err (.failedToMerge e)

/-- `merge`: precondition check, the two `unwrap` chains on the Video
and Audio tasks, log-dir resolution and creation, the stream probe,
codec selection, then the concurrent transcoder/monitor join.  Returns
the performed side effects and the outcome. -/
def mergeRun (env : MergeEnv) : List Effect × MergeOutcome :=
  let info := env.info
  if info.tasks.length < 2 then
    ([], .err (.insufficientInputs info.tasks.length))
  else
    match findVideo info.tasks with
    | none => ([], .panic)
    | some vt =>
      match vt.path with
      | none => ([], .panic)
      | some _ =>
        match findAudio info.tasks with
        | none => ([], .panic)
        | some va =>
          match va.path with
          | none => ([], .panic)
          | some _ =>
            if !env.appLogDirOk then ([], .err .appLogDirFailed)
            else if !env.createDirOk then
              ([.createLogDir], .err .createDirFailed)
            else
              match env.probe with
              | .error e =>
                ([.createLogDir, .probeSpawn], .err (.streamInfoFailed e))
              | .ok (frames, audioCodec) =>
                let codec := selectCodec info.outputExt audioCodec
                let paths := info.tasks.map Task.path
                match paths.get? 0, paths.get? 1 with
                | some (some _), some (some _) =>
                  let fres := env.proc.map ffmpegTask
                  let mres := monTaskResult
                    (monitorRun info.id vt frames env.monObs).2
                  ([.createLogDir, .probeSpawn, .transcoderSpawn codec],
                    joinOutcome (tryJoin fres mres env.ffmpegFirst))
                | _, _ => ([.createLogDir, .probeSpawn], .panic)

/-! ## Theorems -/

/-! ### Window lemmas (claim C3) -/

lemma mapKeys_mapRemove (m : JMap) (k : String) :
    mapKeys (mapRemove m k) = (mapKeys m).filter (fun x => x != k) := by
  induction m with
  | nil => rfl
  | cons p t ih =>
    by_cases h : p.1 != k <;>
      simp [mapRemove, mapKeys, List.filter_cons, h] at ih ⊢ <;>
      simpa [mapRemove, mapKeys] using ih

lemma mapKeys_mapInsert (m : JMap) (k : String) (v : JVal) :
    mapKeys (mapInsert m k v) = (mapKeys m).filter (fun x => x != k) ++ [k] := by
  unfold mapInsert
  rw [mapKeys, List.map_append, ← mapKeys, mapKeys_mapRemove]
  rfl

lemma windowInsert_keys (w : Window) (k : String) (v : JVal) :
    (windowInsert w k v).keys = (windowEvict w).keys ++ [some k] := rfl

lemma windowInsert_map (w : Window) (k : String) (v : JVal) :
    (windowInsert w k v).map = mapInsert (windowEvict w).map k v := rfl

lemma mem_mapKeys_remove {m : JMap} {k x : String} :
    x ∈ mapKeys (mapRemove m k) ↔ x ∈ mapKeys m ∧ x ≠ k := by
  simp [mapKeys_mapRemove, List.mem_filter]

lemma mem_mapKeys_insert {m : JMap} {k x : String} {v : JVal} :
    x ∈ mapKeys (mapInsert m k v) ↔ (x ∈ mapKeys m ∧ x ≠ k) ∨ x = k := by
  simp [mapKeys_mapInsert, List.mem_filter, List.mem_append]

lemma nodup_mapKeys_remove {m : JMap} {k : String}
    (h : (mapKeys m).Nodup) : (mapKeys (mapRemove m k)).Nodup := by
  rw [mapKeys_mapRemove]
  exact h.filter _

lemma nodup_mapKeys_insert {m : JMap} {k : String} {v : JVal}
    (h : (mapKeys m).Nodup) : (mapKeys (mapInsert m k v)).Nodup := by
  rw [mapKeys_mapInsert]
  refine List.Nodup.append (h.filter _) (List.nodup_singleton k) ?_
  intro x hx hk
  rw [List.mem_filter] at hx
  rw [List.mem_singleton] at hk
  simp [hk] at hx

/-- Well-formedness of the rolling window, preserved by insertion: the
`keys` vector stays within 12 entries, the map keys are distinct, and
every map key occurs (as `some`) in the `keys` vector. -/
structure WinWF (w : Window) : Prop where
  len12 : w.keys.length ≤ 12
  nodup : (mapKeys w.map).Nodup
  sub : ∀ k, k ∈ mapKeys w.map → some k ∈ w.keys

lemma winWF_empty : WinWF emptyWindow :=
  ⟨by simp [emptyWindow], by simp [emptyWindow, mapKeys], by simp [emptyWindow, mapKeys]⟩

lemma windowEvict_len {w : Window} (h : w.keys.length ≤ 12) :
    (windowEvict w).keys.length ≤ 11 := by
  unfold windowEvict
  by_cases h12 : 12 ≤ w.keys.length
  · simp only [h12, if_true]
    cases hk : w.keys with
    | nil => simp [hk] at h12
    | cons hd tl =>
      have : tl.length + 1 ≤ 12 := by rw [hk] at h; simpa using h
      cases hd <;> simp <;> omega
  · simp only [h12, if_false]
    omega

lemma windowEvict_nodup {w : Window} (h : (mapKeys w.map).Nodup) :
    (mapKeys (windowEvict w).map).Nodup := by
  unfold windowEvict
  by_cases h12 : 12 ≤ w.keys.length <;> simp only [h12, if_true, if_false]
  · cases hk : w.keys with
    | nil => exact h
    | cons hd tl => cases hd <;> simp_all [nodup_mapKeys_remove]
  · exact h

lemma windowEvict_sub {w : Window} (hw : WinWF w) :
    ∀ x, x ∈ mapKeys (windowEvict w).map → some x ∈ (windowEvict w).keys := by
  unfold windowEvict
  by_cases h12 : 12 ≤ w.keys.length <;> simp only [h12, if_true, if_false]
  · cases hk : w.keys with
    | nil => simpa [hk] using hw.sub
    | cons hd tl =>
      cases hd with
      | none =>
        intro x hx
        have := hw.sub x hx
        rw [hk] at this
        simpa using this
      | some oldest =>
        intro x hx
        rw [mem_mapKeys_remove] at hx
        have := hw.sub x hx.1
        rw [hk] at this
        rcases List.mem_cons.mp this with h1 | h1
        · exact absurd (Option.some.inj h1) hx.2
        · exact h1
  · exact hw.sub

lemma winWF_insert {w : Window} (k : String) (v : JVal) (h : WinWF w) :
    WinWF (windowInsert w k v) := by
  unfold windowInsert
  refine ⟨?_, ?_, ?_⟩
  · have := windowEvict_len h.len12
    simp only [List.length_append, List.length_singleton]
    omega
  · exact nodup_mapKeys_insert (windowEvict_nodup h.nodup)
  · intro x hx
    rw [mem_mapKeys_insert] at hx
    rcases hx with ⟨h1, _⟩ | h1
    · exact List.mem_append_left _ (windowEvict_sub h x h1)
    · subst h1
      exact List.mem_append_right _ (List.mem_singleton_self _)

lemma winWF_insertAll :
    ∀ (seq : List (String × JVal)) (w : Window), WinWF w → WinWF (windowInsertAll w seq)
  | [], _, h => h
  | kv :: rest, w, h =>
    winWF_insertAll rest (windowInsert w kv.1 kv.2) (winWF_insert kv.1 kv.2 h)

lemma nodup_length_le {α β : Type} [DecidableEq α] [DecidableEq β]
    (f : α → β) (hf : Function.Injective f) (l₁ : List α) (l₂ : List β)
    (h₁ : l₁.Nodup) (hsub : ∀ x ∈ l₁, f x ∈ l₂) : l₁.length ≤ l₂.length := by
  have h₂ : (l₁.map f).Nodup := h₁.map hf
  calc l₁.length = (l₁.map f).length := (List.length_map _ _).symm
    _ = (l₁.map f).toFinset.card := (List.toFinset_card_of_nodup h₂).symm
    _ ≤ l₂.toFinset.card := by
        apply Finset.card_le_card
        intro y hy
        rw [List.mem_toFinset] at hy ⊢
        rcases List.mem_map.mp hy with ⟨x, hx, rfl⟩
        exact hsub x hx
    _ ≤ l₂.length := l₂.toFinset_card_le

lemma window_map_card {w : Window} (h : WinWF w) : (mapKeys w.map).length ≤ 12 :=
  le_trans
    (nodup_length_le some (fun _ _ => Option.some.inj) _ w.keys h.nodup h.sub)
    h.len12

/-! The distinct-key FIFO characterization: over a duplicate-free key
sequence, the window holds exactly the last (up to) 12 inserted keys. -/

def lastN (n : Nat) (l : List String) : List String := l.drop (l.length - n)

lemma lastN_of_le {n : Nat} {l : List String} (h : l.length ≤ n) : lastN n l = l := by
  unfold lastN
  rw [Nat.sub_eq_zero_of_le h, List.drop_zero]

lemma lastN_length (n : Nat) (l : List String) :
    (lastN n l).length = l.length - (l.length - n) := by
  simp [lastN]

lemma lastN_sublist (n : Nat) (l : List String) : (lastN n l).Sublist l :=
  List.drop_sublist _ _

lemma lastN_append_ge {l : List String} {k : String} (h : 12 ≤ l.length) :
    lastN 12 (l ++ [k]) = (lastN 12 l).tail ++ [k] := by
  unfold lastN
  have h1 : l.length + 1 - 12 = (l.length - 12) + 1 := by omega
  have h2 : (l.length - 12) + 1 ≤ l.length := by omega
  rw [List.length_append, List.length_singleton, h1,
    List.drop_append_of_le_length h2, List.tail_drop]

lemma window_distinct_spec :
    ∀ (seq : List (String × JVal)) (pre : List String) (w : Window),
      (pre ++ seq.map Prod.fst).Nodup →
      w.keys = (lastN 12 pre).map some →
      (∀ x, x ∈ mapKeys w.map ↔ x ∈ lastN 12 pre) →
      (windowInsertAll w seq).keys = (lastN 12 (pre ++ seq.map Prod.fst)).map some ∧
      (∀ x, x ∈ mapKeys (windowInsertAll w seq).map ↔
        x ∈ lastN 12 (pre ++ seq.map Prod.fst)) := by
  intro seq
  induction seq with
  | nil =>
    intro pre w hnd hk hm
    simpa using ⟨hk, hm⟩
  | cons kv rest ih =>
    obtain ⟨k, v⟩ := kv
    intro pre w hnd hk hm
    have hmap : (pre ++ ((k, v) :: rest).map Prod.fst) = (pre ++ [k]) ++ rest.map Prod.fst := by
      simp
    rw [hmap] at hnd ⊢
    have hknotpre : k ∉ pre := by
      rcases List.nodup_append.mp ((List.append_assoc pre [k] _) ▸ hnd) with ⟨_, hnd2, hdisj⟩
      intro hin
      exact hdisj hin (by simp)
    have hstep : windowInsertAll w ((k, v) :: rest) =
        windowInsertAll (windowInsert w k v) rest := rfl
    rw [hstep]
    have hpk_len : (pre ++ [k]).length = pre.length + 1 := by
      simp
    by_cases hlen : pre.length < 12
    · have hpre : lastN 12 pre = pre := lastN_of_le (by omega)
      have hpk : lastN 12 (pre ++ [k]) = pre ++ [k] := lastN_of_le (by omega)
      have hklen : w.keys.length = pre.length := by
        rw [hk, List.length_map, hpre]
      have hevict : windowEvict w = w := by
        unfold windowEvict
        rw [if_neg (by omega)]
      have hkeys' : (windowInsert w k v).keys = (lastN 12 (pre ++ [k])).map some := by
        rw [windowInsert_keys, hevict, hk, hpre, hpk]
        simp
      have hmem' : ∀ x, x ∈ mapKeys (windowInsert w k v).map ↔ x ∈ lastN 12 (pre ++ [k]) := by
        intro x
        rw [windowInsert_map, hevict, mem_mapKeys_insert, hm x, hpre, hpk]
        constructor
        · rintro (⟨h1, _⟩ | rfl)
          · exact List.mem_append_left _ h1
          · exact List.mem_append_right _ (List.mem_singleton_self _)
        · intro hx
          rcases List.mem_append.mp hx with h1 | h1
          · exact Or.inl ⟨h1, fun hxk => hknotpre (hxk ▸ h1)⟩
          · exact Or.inr (List.mem_singleton.mp h1)
      exact ih (pre ++ [k]) (windowInsert w k v) hnd hkeys' hmem'
    · have hge : 12 ≤ pre.length := by omega
      have hlast12 : (lastN 12 pre).length = 12 := by
        rw [lastN_length]; omega
      obtain ⟨hd, tl, hht⟩ : ∃ hd tl, lastN 12 pre = hd :: tl := by
        cases he : lastN 12 pre with
        | nil => rw [he] at hlast12; simp at hlast12
        | cons hd tl => exact ⟨hd, tl, rfl⟩
      have htl_len : tl.length = 11 := by
        rw [hht] at hlast12
        simpa using hlast12
      have hpre_nd : pre.Nodup := by
        have h1 : (pre ++ [k]).Nodup := (List.nodup_append.mp hnd).1
        exact h1.sublist (List.sublist_append_left pre [k])
      have hnodup_last : (lastN 12 pre).Nodup :=
        hpre_nd.sublist (lastN_sublist 12 pre)
      have hhd_tl : hd ∉ tl := by
        rw [hht] at hnodup_last
        exact (List.nodup_cons.mp hnodup_last).1
      have hevict : windowEvict w = ⟨mapRemove w.map hd, tl.map some⟩ := by
        unfold windowEvict
        rw [hk, hht]
        simp [htl_len]
      have htail : lastN 12 (pre ++ [k]) = tl ++ [k] := by
        rw [lastN_append_ge hge, hht]
        rfl
      have hkeys' : (windowInsert w k v).keys = (lastN 12 (pre ++ [k])).map some := by
        rw [windowInsert_keys, hevict, htail]
        simp
      have htl_sub_pre : ∀ x ∈ tl, x ∈ pre := by
        intro x hx
        exact (lastN_sublist 12 pre).mem (hht ▸ List.mem_cons_of_mem hd hx)
      have hmem' : ∀ x, x ∈ mapKeys (windowInsert w k v).map ↔ x ∈ lastN 12 (pre ++ [k]) := by
        intro x
        rw [windowInsert_map, hevict, htail]
        simp only
        rw [mem_mapKeys_insert, mem_mapKeys_remove, hm x, hht]
        constructor
        · rintro (⟨⟨h1, h2⟩, _⟩ | rfl)
          · rcases List.mem_cons.mp h1 with rfl | h1
            · exact absurd rfl h2
            · exact List.mem_append_left _ h1
          · exact List.mem_append_right _ (List.mem_singleton_self _)
        · intro hx
          rcases List.mem_append.mp hx with h1 | h1
          · refine Or.inl ⟨⟨List.mem_cons_of_mem hd h1, fun hxh => ?_⟩, fun hxk => ?_⟩
            · exact hhd_tl (hxh ▸ h1)
            · exact hknotpre (hxk ▸ htl_sub_pre x h1)
          · exact Or.inr (List.mem_singleton.mp h1)
      exact ih (pre ++ [k]) (windowInsert w k v) hnd hkeys' hmem'

/-- C3 (amended): for every insertion sequence the window holds at most
12 entries, eviction always removing the oldest `keys` entry first
(FIFO, independent of key identity); and when the inserted keys are
pairwise distinct the window holds exactly the keys of the 12 most
recently inserted lines — in particular after 13 distinct keys the
first-inserted key is absent.  (With duplicate keys the exact-window
property fails, see the counterexample.) -/
theorem c3_window_amended (seq : List (String × JVal)) :
    (mapKeys (windowInsertAll emptyWindow seq).map).length ≤ 12 ∧
    ((seq.map Prod.fst).Nodup →
      ∀ x, x ∈ mapKeys (windowInsertAll emptyWindow seq).map ↔
        x ∈ (seq.map Prod.fst).drop (seq.length - 12)) := by
  constructor
  · exact window_map_card (winWF_insertAll seq emptyWindow winWF_empty)
  · intro hnd x
    have := (window_distinct_spec seq [] emptyWindow (by simpa using hnd)
      (by simp [emptyWindow, lastN]) (by simp [emptyWindow, mapKeys, lastN])).2 x
    simpa [lastN, List.length_map] using this

def seqC3distinct : List (String × JVal) :=
  [("f01", .uintNum 0), ("f02", .uintNum 0), ("f03", .uintNum 0), ("f04", .uintNum 0),
   ("f05", .uintNum 0), ("f06", .uintNum 0), ("f07", .uintNum 0), ("f08", .uintNum 0),
   ("f09", .uintNum 0), ("f10", .uintNum 0), ("f11", .uintNum 0), ("f12", .uintNum 0),
   ("f13", .uintNum 0)]

theorem c3_window_amended_witness :
    "f01" ∉ mapKeys (windowInsertAll emptyWindow seqC3distinct).map := by
  intro hmem
  have h := ((c3_window_amended seqC3distinct).2 (by decide) "f01").mp hmem
  revert h
  decide

/-- C6: audio handling mode is the stated pure function of (output
container extension, probed source audio codec): strict containers
`mp4`/`flv` pass through exactly for `aac`/`mp3` and re-encode to `aac`
otherwise; every other container passes through; in particular
`mp4`/`aac` resolves to pass-through and `mp4`/`opus` to re-encode. -/
theorem c6_audio_codec_mode (ext ac : String) :
    (selectCodec ext ac =
      if ext = "mp4" ∨ ext = "flv" then
        if ac = "aac" ∨ ac = "mp3" then "copy" else "aac"
      else "copy") ∧
    selectCodec "mp4" "aac" = "copy" ∧ selectCodec "mp4" "opus" = "aac" := by
  refine ⟨?_, rfl, rfl⟩
  unfold selectCodec
  split <;> try split
  all_goals simp_all

/-- C7: with fewer than two tasks, `merge` returns the insufficient-input
error at once, with no side effect performed (no log-dir creation, no
probe, no transcoder spawn). -/
theorem c7_too_few_inputs (env : MergeEnv)
    (h : env.info.tasks.length < 2) :
    mergeRun env = ([], .err (.insufficientInputs env.info.tasks.length)) := by
  unfold mergeRun
  simp [h]

def envC7 : MergeEnv :=
  { info := { id := "job", tasks := [⟨none, some "a.m4s", .Audio⟩], outputExt := "mp4" }
    appLogDirOk := true
    createDirOk := true
    probe := .ok (240, "aac")
    proc := some (.exited true (some 0))
    monObs := []
    ffmpegFirst := true }

theorem c7_too_few_inputs_witness :
    mergeRun envC7 = ([], .err (.insufficientInputs 1)) :=
  c7_too_few_inputs envC7 (by decide)

def envC2 : MergeEnv :=
  { info := { id := "job"
              tasks := [⟨none, some "a1.m4s", .Audio⟩, ⟨none, some "a2.m4s", .Audio⟩]
              outputExt := "mp4" }
    appLogDirOk := true
    createDirOk := true
    probe := .ok (240, "aac")
    proc := some (.exited true (some 0))
    monObs := []
    ffmpegFirst := true }

/-- C2 counterexample: a two-task input with no `Video` task makes
`merge` crash with a panic (`unwrap()` on `None`), not return an error
value, so the outcome is the `panic` constructor rather than `err`. -/
theorem c2_counterexample :
    mergeRun envC2 = ([], MergeOutcome.panic) ∧
      2 ≤ envC2.info.tasks.length ∧
      (envC2.info.tasks.find? (fun t => t.taskType == TaskType.Video)) = none := by
  decide

/-- C2 (amended): with at least two tasks but a missing expected track
type (no `Video` task, or no `Audio` task), `merge` crashes with a panic
before any subprocess work begins (no side effect performed), rather
than returning an error value. -/
theorem c2_missing_track_panics (env : MergeEnv)
    (h2 : 2 ≤ env.info.tasks.length)
    (h : (∀ t ∈ env.info.tasks, t.taskType ≠ .Video) ∨
         (∀ t ∈ env.info.tasks, t.taskType ≠ .Audio)) :
    mergeRun env = ([], .panic) := by
  have h2' : ¬ env.info.tasks.length < 2 := not_lt.mpr h2
  unfold mergeRun
  simp only [h2', if_false]
  rcases h with h | h
  · have hv : findVideo env.info.tasks = none := by
      apply List.find?_eq_none.mpr
      intro t ht
      simpa using h t ht
    rw [hv]
  · have ha : findAudio env.info.tasks = none := by
      apply List.find?_eq_none.mpr
      intro t ht
      simpa using h t ht
    cases hv : findVideo env.info.tasks with
    | none => rfl
    | some vt =>
      cases hvp : vt.path with
      | none => simp only [hvp]
      | some p => simp only [hvp, ha]

theorem c2_missing_track_panics_witness :
    mergeRun envC2 = ([], .panic) :=
  c2_missing_track_panics envC2 (by decide) (Or.inl (by decide))

def seqC3dup : List (String × JVal) :=
  List.replicate 12 ("k1", JVal.uintNum 0) ++ [("k2", JVal.uintNum 0)]

/-- C3 counterexample: the window does not always hold exactly the keys
of the 12 most recently inserted lines.  After feeding `k1=0` twelve
times and then `k2=0`, the key `k1` is among the 12 most recently
inserted keys, yet it is absent from the window: evicting the oldest
occurrence of `k1` removed its map entry although `k1` was re-inserted
more recently. -/
theorem c3_counterexample :
    "k1" ∈ (seqC3dup.map Prod.fst).drop (seqC3dup.length - 12) ∧
      mapKeys (windowInsertAll emptyWindow seqC3dup).map = ["k2"] := by
  decide

/-! ### Monitor lemmas (claims C4, C5, C8, C9, C10) -/

lemma tailStep_io (id gid : String) (frames : Nat) (st : TailerState) :
    tailStep id gid frames st .ioError = (st, [], .err .monitorIoFailed) := rfl

lemma tailStep_snap_fst (id gid : String) (frames : Nat) (st : TailerState)
    (size : Nat) (content : List Char) :
    (tailStep id gid frames st (.snap size content)).1 = ⟨size, tailWindow st content⟩ := by
  simp only [tailStep]
  split
  · rfl
  · split
    · rfl
    · split <;> rfl

lemma tailStep_events (id gid : String) (frames : Nat) (st : TailerState) (o : Obs) :
    ((tailStep id gid frames st o).2.2 = .fin →
      (tailStep id gid frames st o).2.1 = [.Finished id gid]) ∧
    (∀ e, (tailStep id gid frames st o).2.2 = .err e →
      (tailStep id gid frames st o).2.1 = []) ∧
    ((tailStep id gid frames st o).2.2 = .cont →
      (tailStep id gid frames st o).2.1 = [] ∨
      ∃ F, (tailStep id gid frames st o).2.1 = [.Progress id gid frames F]) := by
  cases o with
  | ioError => simp [tailStep]
  | snap size content =>
    simp only [tailStep]
    split
    · simp
    · split
      · simp
      · split <;> simp

lemma monitorLoop_shape (id gid : String) (frames : Nat) (obs : List Obs) :
    ∀ st : TailerState,
      ∃ ps : List DownloadEvent,
        (∀ e ∈ ps, ∃ F, e = .Progress id gid frames F) ∧
        (monitorLoop id gid frames st obs).1 =
          ps ++ (if (monitorLoop id gid frames st obs).2 = .finished
                 then [.Finished id gid] else []) := by
  induction obs with
  | nil =>
    intro st
    exact ⟨[], by simp, by simp [monitorLoop]⟩
  | cons o rest ih =>
    intro st
    have hev := tailStep_events id gid frames st o
    rcases hstep : tailStep id gid frames st o with ⟨st2, evs, res⟩
    rw [hstep] at hev
    simp only [monitorLoop, hstep]
    cases res with
    | cont =>
      obtain ⟨ps, hps, hshape⟩ := ih st2
      rcases hev.2.2 rfl with h1 | ⟨F, h1⟩
      · subst h1
        exact ⟨ps, hps, by simpa using hshape⟩
      · subst h1
        refine ⟨.Progress id gid frames F :: ps, ?_, ?_⟩
        · intro e he
          rcases List.mem_cons.mp he with rfl | he
          · exact ⟨F, rfl⟩
          · exact hps e he
        · simpa using hshape
    | fin =>
      have h1 : evs = [.Finished id gid] := hev.1 rfl
      subst h1
      exact ⟨[], by simp, by simp⟩
    | err e =>
      have h1 : evs = [] := hev.2.1 e rfl
      subst h1
      exact ⟨[], by simp, by simp⟩

/-- C4: the monitor's event trace is strictly ordered: exactly one
`Started` comes first (before any content is processed), everything
between is `Progress`, and a `Finished` — present exactly when the
monitor terminates successfully — is last, followed by nothing. -/
theorem c4_event_order (id : String) (task : Task) (frames : Nat) (obs : List Obs) :
    ∃ ps : List DownloadEvent,
      (∀ e ∈ ps, ∃ F, e = .Progress id (gidOf task) frames F) ∧
      (monitorRun id task frames obs).1 =
        .Started id (gidOf task) .Merge ::
          (ps ++ (if (monitorRun id task frames obs).2 = .finished
                  then [.Finished id (gidOf task)] else [])) := by
  obtain ⟨ps, hps, hshape⟩ := monitorLoop_shape id (gidOf task) frames obs initState
  exact ⟨ps, hps, by simp only [monitorRun, hshape]⟩

def taskC10 : Task := ⟨none, some "v.m4s", .Video⟩

/-- C10 counterexample: for a `Video` task the `Started` event's task
kind is the hardcoded `Merge`, not the task's own kind, so the task kind
is not passed through unchanged. -/
theorem c10_counterexample :
    (monitorRun "job" taskC10 1 []).1 = [.Started "job" "" .Merge] ∧
      taskC10.taskType = .Video ∧ TaskType.Merge ≠ TaskType.Video := by
  decide

/-- C10 (amended): when the task has no group id every emitted event
carries the empty string as its group id, and the job id is passed
through unchanged; but the task kind appears only in the `Started`
event, where it is the fixed `Merge` kind regardless of the task's own
kind. -/
theorem c10_identity_amended (id : String) (task : Task) (frames : Nat)
    (obs : List Obs) (h : task.gid = none) :
    ∀ e ∈ (monitorRun id task frames obs).1,
      e = .Started id "" .Merge ∨ (∃ F, e = .Progress id "" frames F) ∨
        e = .Finished id "" := by
  have hg : gidOf task = "" := by simp [gidOf, h]
  obtain ⟨ps, hps, hshape⟩ := monitorLoop_shape id (gidOf task) frames obs initState
  intro e he
  simp only [monitorRun] at he
  rcases List.mem_cons.mp he with rfl | he
  · exact Or.inl (by rw [hg])
  · rw [hshape] at he
    rcases List.mem_append.mp he with h1 | h1
    · obtain ⟨F, rfl⟩ := hps e h1
      exact Or.inr (Or.inl ⟨F, by rw [hg]⟩)
    · by_cases hfin : (monitorLoop id (gidOf task) frames initState obs).2 = .finished
      · rw [if_pos hfin] at h1
        rw [List.mem_singleton.mp h1, hg]
        exact Or.inr (Or.inr rfl)
      · rw [if_neg hfin] at h1
        simp at h1

theorem c10_identity_amended_witness :
    DownloadEvent.Started "job" "" .Merge = .Started "job" "" .Merge ∨
      (∃ F, DownloadEvent.Started "job" "" .Merge = .Progress "job" "" 1 F) ∨
      DownloadEvent.Started "job" "" .Merge = .Finished "job" "" :=
  c10_identity_amended "job" taskC10 1 [] rfl (.Started "job" "" .Merge) (by decide)

/-- C5: with a decodable non-empty window, `progress = "continue"` emits
exactly one `Progress` event whose current-units field is the record's
`frame` and whose total-units field is the `frames` total passed to the
monitor, unmodified, and polling continues; `progress = "end"` emits a
`Finished` event and terminates the loop successfully; any other value
emits nothing and continues polling. -/
theorem c5_progress_mapping (id gid : String) (frames : Nat) (st : TailerState)
    (size : Nat) (content : List Char) (rest : List Obs) (log : FFmpegLog)
    (hne : (tailWindow st content).map.isEmpty = false)
    (hdec : decodeLog (tailWindow st content).map = some log) :
    (log.progress = "continue" →
      tailStep id gid frames st (.snap size content) =
        (⟨size, tailWindow st content⟩, [.Progress id gid frames log.frame], .cont) ∧
      monitorLoop id gid frames st (.snap size content :: rest) =
        (.Progress id gid frames log.frame ::
            (monitorLoop id gid frames ⟨size, tailWindow st content⟩ rest).1,
          (monitorLoop id gid frames ⟨size, tailWindow st content⟩ rest).2)) ∧
    (log.progress = "end" →
      tailStep id gid frames st (.snap size content) =
        (⟨size, tailWindow st content⟩, [.Finished id gid], .fin) ∧
      monitorLoop id gid frames st (.snap size content :: rest) =
        ([.Finished id gid], .finished)) ∧
    (log.progress ≠ "continue" → log.progress ≠ "end" →
      tailStep id gid frames st (.snap size content) =
        (⟨size, tailWindow st content⟩, [], .cont)) := by
  refine ⟨?_, ?_, ?_⟩
  · intro hp
    have hts : tailStep id gid frames st (.snap size content) =
        (⟨size, tailWindow st content⟩, [.Progress id gid frames log.frame], .cont) := by
      simp [tailStep, hne, hdec, hp]
    exact ⟨hts, by simp [monitorLoop, hts]⟩
  · intro hp
    have hts : tailStep id gid frames st (.snap size content) =
        (⟨size, tailWindow st content⟩, [.Finished id gid], .fin) := by
      simp [tailStep, hne, hdec, hp]
    exact ⟨hts, by simp [monitorLoop, hts]⟩
  · intro hc he
    simp [tailStep, hne, hdec, hc, he]

def c5content : List Char :=
  ("frame=42\nfps=25\nstream_0_0_q=3\nbitrate=100kbits/s\ntotal_size=1000\n" ++
   "out_time_us=5000\nout_time_ms=5000\nout_time=00:00:05.00\ndup_frames=0\n" ++
   "drop_frames=0\nspeed=1x\nprogress=continue\n").data

def c5log : FFmpegLog :=
  ⟨42, .uintNum 25, .uintNum 3, "100kbits/s", 1000, 5000, 5000, "00:00:05.00",
    0, 0, "1x", "continue"⟩

theorem c5_progress_mapping_witness :
    tailStep "job" "" 240 initState (.snap 150 c5content) =
      (⟨150, tailWindow initState c5content⟩, [.Progress "job" "" 240 42], .cont) ∧
    monitorLoop "job" "" 240 initState [.snap 150 c5content] =
      (.Progress "job" "" 240 42 ::
          (monitorLoop "job" "" 240 ⟨150, tailWindow initState c5content⟩ []).1,
        (monitorLoop "job" "" 240 ⟨150, tailWindow initState c5content⟩ []).2) :=
  (c5_progress_mapping "job" "" 240 initState 150 c5content [] c5log
    (by decide) (by decide)).1 rfl

/-- C8: in a tail-loop iteration whose resulting window is empty,
decoding is skipped and polling continues without error; when the
window is non-empty a decode failure terminates the monitor's loop with
an error. -/
theorem c8_decode_gate (id gid : String) (frames : Nat) (st : TailerState)
    (size : Nat) (content : List Char) (rest : List Obs) :
    ((tailWindow st content).map.isEmpty = true →
      tailStep id gid frames st (.snap size content) =
        (⟨size, tailWindow st content⟩, [], .cont) ∧
      monitorLoop id gid frames st (.snap size content :: rest) =
        monitorLoop id gid frames ⟨size, tailWindow st content⟩ rest) ∧
    ((tailWindow st content).map.isEmpty = false →
      decodeLog (tailWindow st content).map = none →
      tailStep id gid frames st (.snap size content) =
        (⟨size, tailWindow st content⟩, [], .err .monitorDecodeFailed) ∧
      monitorLoop id gid frames st (.snap size content :: rest) =
        ([], .errored .monitorDecodeFailed)) := by
  constructor
  · intro hemp
    have hts : tailStep id gid frames st (.snap size content) =
        (⟨size, tailWindow st content⟩, [], .cont) := by
      simp [tailStep, hemp]
    exact ⟨hts, by simp [monitorLoop, hts]⟩
  · intro hne hdec
    have hts : tailStep id gid frames st (.snap size content) =
        (⟨size, tailWindow st content⟩, [], .err .monitorDecodeFailed) := by
      simp [tailStep, hne, hdec]
    exact ⟨hts, by simp [monitorLoop, hts]⟩

def c8content : List Char := ("frame=abc\n").data

theorem c8_decode_gate_witness :
    tailStep "job" "" 240 initState (.snap 10 c8content) =
      (⟨10, tailWindow initState c8content⟩, [], .err .monitorDecodeFailed) ∧
    monitorLoop "job" "" 240 initState [.snap 10 c8content] =
      ([], .errored .monitorDecodeFailed) :=
  (c8_decode_gate "job" "" 240 initState 10 c8content []).2 (by decide) (by decide)

lemma tailStates_cursor (id gid : String) (frames : Nat) :
    ∀ (obs : List Obs) (st : TailerState),
      List.Chain' (· ≤ ·) (st.lastSize :: obs.filterMap obsSize) →
      List.Chain' (· ≤ ·)
        (st.lastSize :: (tailStates id gid frames st obs).map TailerState.lastSize) ∧
      (∀ (i s : Nat) (c : List Char) (st' : TailerState),
        obs.get? i = some (.snap s c) →
        (tailStates id gid frames st obs).get? i = some st' →
        st'.lastSize = s) := by
  intro obs
  induction obs with
  | nil =>
    intro st _
    refine ⟨by simp [tailStates], ?_⟩
    intro i s c st' _ hst'
    simp [tailStates] at hst'
  | cons o rest ih =>
    intro st hch
    cases o with
    | ioError =>
      have hts : tailStates id gid frames st (.ioError :: rest) = [st] := by
        simp [tailStates, tailStep_io]
      refine ⟨by rw [hts]; simp, ?_⟩
      intro i s c st' hget hst'
      cases i with
      | zero => simp at hget
      | succ j => rw [hts] at hst'; simp at hst'
    | snap sz c0 =>
      rcases hstep : tailStep id gid frames st (.snap sz c0) with ⟨st2, evs, res⟩
      have hfst : st2 = ⟨sz, tailWindow st c0⟩ := by
        have h := tailStep_snap_fst id gid frames st sz c0
        rw [hstep] at h
        exact h
      have hst2 : st2.lastSize = sz := by rw [hfst]
      have hch1 : st.lastSize ≤ sz ∧
          List.Chain' (· ≤ ·) (sz :: rest.filterMap obsSize) :=
        List.chain'_cons.mp (by simpa [obsSize] using hch)
      cases res with
      | cont =>
        have hts : tailStates id gid frames st (.snap sz c0 :: rest) =
            st2 :: tailStates id gid frames st2 rest := by
          simp [tailStates, hstep]
        obtain ⟨ihc, ihi⟩ := ih st2 (by rw [hst2]; exact hch1.2)
        refine ⟨?_, ?_⟩
        · rw [hts]
          simp only [List.map_cons]
          exact List.chain'_cons.mpr ⟨by rw [hst2]; exact hch1.1, ihc⟩
        · intro i s c st' hget hst'
          rw [hts] at hst'
          cases i with
          | zero =>
            have h1 : Obs.snap sz c0 = Obs.snap s c := by simpa using hget
            have h2 : st2 = st' := by simpa using hst'
            cases h1
            rw [← h2]
            exact hst2
          | succ j =>
            exact ihi j s c st' (by simpa using hget) (by simpa using hst')
      | fin =>
        have hts : tailStates id gid frames st (.snap sz c0 :: rest) = [st2] := by
          simp [tailStates, hstep]
        refine ⟨?_, ?_⟩
        · rw [hts]
          simp only [List.map_cons, List.map_nil]
          exact List.chain'_pair.mpr (by rw [hst2]; exact hch1.1)
        · intro i s c st' hget hst'
          rw [hts] at hst'
          cases i with
          | zero =>
            have h1 : Obs.snap sz c0 = Obs.snap s c := by simpa using hget
            have h2 : st2 = st' := by simpa using hst'
            cases h1
            rw [← h2]
            exact hst2
          | succ j => simp at hst'
      | err e =>
        have hts : tailStates id gid frames st (.snap sz c0 :: rest) = [st2] := by
          simp [tailStates, hstep]
        refine ⟨?_, ?_⟩
        · rw [hts]
          simp only [List.map_cons, List.map_nil]
          exact List.chain'_pair.mpr (by rw [hst2]; exact hch1.1)
        · intro i s c st' hget hst'
          rw [hts] at hst'
          cases i with
          | zero =>
            have h1 : Obs.snap sz c0 = Obs.snap s c := by simpa using hget
            have h2 : st2 = st' := by simpa using hst'
            cases h1
            rw [← h2]
            exact hst2
          | succ j => simp at hst'

/-- C9: if the observed file sizes never decrease across iterations,
the read cursor never rewinds — the cursor sequence starting from 0 is
monotonically non-decreasing — and after every successfully read
iteration the cursor equals the size observed at that iteration's start
(regardless of what lines were consumed); an iteration whose read fails
leaves the cursor unchanged. -/
theorem c9_cursor_monotone (id gid : String) (frames : Nat) (obs : List Obs)
    (hmono : List.Chain' (· ≤ ·) (obs.filterMap obsSize)) :
    List.Chain' (· ≤ ·)
      (0 :: (tailStates id gid frames initState obs).map TailerState.lastSize) ∧
    (∀ (i s : Nat) (c : List Char) (st' : TailerState),
      obs.get? i = some (.snap s c) →
      (tailStates id gid frames initState obs).get? i = some st' →
      st'.lastSize = s) := by
  have h0 : List.Chain' (· ≤ ·) (initState.lastSize :: obs.filterMap obsSize) := by
    cases hobs : obs.filterMap obsSize with
    | nil => simp
    | cons a t =>
      rw [hobs] at hmono
      exact List.chain'_cons.mpr ⟨Nat.zero_le a, hmono⟩
  exact tailStates_cursor id gid frames obs initState h0

def obsC9 : List Obs := [.snap 5 ("a=1\n").data, .snap 9 ("b=2\n").data]

theorem c9_cursor_monotone_witness :
    List.Chain' (· ≤ ·)
      (0 :: (tailStates "job" "" 240 initState obsC9).map TailerState.lastSize) :=
  (c9_cursor_monotone "job" "" 240 obsC9
    (show List.Chain' (· ≤ ·) [5, 9] from List.chain'_pair.mpr (by norm_num))).1

/-! ### Merge join lemmas (claim C1) -/

lemma tryJoin_ok_iff (f m : Option (Except Err Unit)) (b : Bool) :
    tryJoin f m b = some (.ok ()) ↔ f = some (.ok ()) ∧ m = some (.ok ()) := by
  cases f with
  | none =>
    cases m with
    | none => simp [tryJoin, firstFailure]
    | some em => cases em <;> simp [tryJoin, firstFailure]
  | some ef =>
    cases ef with
    | error e =>
      cases m with
      | none => simp [tryJoin, firstFailure]
      | some em => cases em <;> simp [tryJoin, firstFailure]
    | ok u =>
      cases m with
      | none => simp [tryJoin, firstFailure]
      | some em => cases em <;> simp [tryJoin, firstFailure]

lemma tryJoin_error (f m : Option (Except Err Unit)) (b : Bool) (e : Err)
    (h : firstFailure f m b = some e) : tryJoin f m b = some (.error e) := by
  unfold tryJoin
  rw [h]

lemma joinOutcome_ok_iff (r : Option (Except Err Unit)) :
    joinOutcome r = .ok ↔ r = some (.ok ()) := by
  cases r with
  | none => simp [joinOutcome]
  | some x => cases x <;> simp [joinOutcome]

lemma proc_ok_iff (p : Option ProcResult) :
    p.map ffmpegTask = some (.ok ()) ↔ ∃ c, p = some (.exited true c) := by
  cases p with
  | none => simp
  | some r =>
    cases r with
    | ioFail => simp [ffmpegTask]
    | exited s c => cases s <;> simp [ffmpegTask]

lemma monTask_ok_iff (o : MonOutcome) :
    monTaskResult o = some (.ok ()) ↔ o = .finished := by
  cases o <;> simp [monTaskResult]

/-- C1: once the preconditions hold (two tasks with Video and Audio
paths, log dir created, probe succeeded), `merge` succeeds exactly when
the external process exited with a success status and the monitor
reached `Finished`; and whenever either concurrent task errors, `merge`
returns the `Failed to merge` wrapper whose cause is the first
failure. -/
theorem c1_merge_success_iff (env : MergeEnv) (vt va : Task)
    (vp ap p0 p1 : String) (frames : Nat) (ac : String)
    (hlen : 2 ≤ env.info.tasks.length)
    (hv : findVideo env.info.tasks = some vt) (hvp : vt.path = some vp)
    (ha : findAudio env.info.tasks = some va) (hap : va.path = some ap)
    (h0 : (env.info.tasks.map Task.path).get? 0 = some (some p0))
    (h1 : (env.info.tasks.map Task.path).get? 1 = some (some p1))
    (hdir : env.appLogDirOk = true)
    (hcd : env.createDirOk = true)
    (hprobe : env.probe = .ok (frames, ac)) :
    ((mergeRun env).2 = .ok ↔
      (∃ c, env.proc = some (.exited true c)) ∧
        (monitorRun env.info.id vt frames env.monObs).2 = .finished) ∧
    (∀ e, firstFailure (env.proc.map ffmpegTask)
        (monTaskResult (monitorRun env.info.id vt frames env.monObs).2)
        env.ffmpegFirst = some e →
      (mergeRun env).2 = .err (.failedToMerge e)) := by
  have hmr : mergeRun env =
      ([.createLogDir, .probeSpawn,
          .transcoderSpawn (selectCodec env.info.outputExt ac)],
        joinOutcome (tryJoin (env.proc.map ffmpegTask)
          (monTaskResult (monitorRun env.info.id vt frames env.monObs).2)
          env.ffmpegFirst)) := by
    unfold mergeRun
    rw [if_neg (by omega : ¬ env.info.tasks.length < 2)]
    simp only [hv, hvp, ha, hap, hdir, hcd, hprobe, h0, h1, Bool.not_true,
      Bool.false_eq_true, if_false]
  constructor
  · rw [hmr]
    simp only
    rw [joinOutcome_ok_iff, tryJoin_ok_iff, proc_ok_iff, monTask_ok_iff]
  · intro e he
    rw [hmr]
    simp only
    rw [tryJoin_error _ _ _ _ he]
    rfl

def c1endContent : List Char :=
  ("frame=240\nfps=25\nstream_0_0_q=3\nbitrate=100kbits/s\ntotal_size=1000\n" ++
   "out_time_us=10000\nout_time_ms=10000\nout_time=00:00:10.00\ndup_frames=0\n" ++
   "drop_frames=0\nspeed=1x\nprogress=end\n").data

def envC1 : MergeEnv :=
  { info := { id := "job"
              tasks := [⟨some "g", some "v.m4s", .Video⟩, ⟨none, some "a.m4s", .Audio⟩]
              outputExt := "mp4" }
    appLogDirOk := true
    createDirOk := true
    probe := .ok (240, "aac")
    proc := some (.exited true (some 0))
    monObs := [.snap 200 c1endContent]
    ffmpegFirst := true }

theorem c1_merge_success_iff_witness : (mergeRun envC1).2 = .ok :=
  (c1_merge_success_iff envC1 ⟨some "g", some "v.m4s", .Video⟩
    ⟨none, some "a.m4s", .Audio⟩ "v.m4s" "a.m4s" "v.m4s" "a.m4s" 240 "aac"
    (by decide) (by decide) (by decide) (by decide) (by decide)
    (by decide) (by decide) rfl rfl rfl).1.mpr
    ⟨⟨some 0, rfl⟩, by decide⟩

end FFmpegSpec
